import Mathlib

set_option maxRecDepth 100000

namespace SktimeBenchmarking

/-- Modelled from the spec: the repository ships only the example notebook
`examples/benchmarking.ipynb`; the `sktime.benchmarking` implementation
(results store, orchestrator, evaluator) is not under `src/`, so the data
model follows the spec's "DATA MODEL" section. A Result Record's identity is
(dataset name, strategy name, fold index). -/
structure Key where
  dataset : String
  strategy : String
  fold : Nat
  deriving DecidableEq

/-- Modelled from the spec: a Result Record holds predicted labels, true
labels, and an optional fitted strategy artifact (the artifact is abstracted
to an optional tag, since evaluation only reads predictions and truth). -/
structure ResultRecord where
  predictions : List Nat
  truth : List Nat
  fittedArtifact : Option Nat
  deriving DecidableEq

/-- Modelled from the spec: the Results Store (`HDDResults` in the notebook)
persists Result Records keyed by (dataset, strategy, fold); modelled as an
association list in insertion order, matching `iterate`'s finite restartable
sequence. -/
abbrev HDDResults : Type := List (Key × ResultRecord)

/-- Error raised by a `put` with overwrite disabled on an existing key
(spec's AlreadyExistsError). -/
inductive StoreError where
  | alreadyExists
  deriving DecidableEq

namespace HDDResults

/-- The empty store. -/
def empty : HDDResults := []

/-- The keys currently present, in insertion order. -/
def keys (s : HDDResults) : List Key := s.map Prod.fst

/-- Modelled from the spec: `exists(dataset, strategy, fold) -> bool`. -/
def has (s : HDDResults) (k : Key) : Bool :=
  s.any (fun p => decide (p.1 = k))

/-- Modelled from the spec: `get(dataset, strategy, fold) -> Result Record
or not-found`. -/
def get (s : HDDResults) (k : Key) : Option ResultRecord :=
  (s.find? (fun p => decide (p.1 = k))).map Prod.snd

/-- Modelled from the spec: `put` writes a record at a key; with overwrite
disabled, a `put` on an existing key fails with AlreadyExists rather than
silently merging; with overwrite enabled it replaces the record. -/
def put (s : HDDResults) (k : Key) (r : ResultRecord) (overwrite : Bool) :
    Except StoreError HDDResults :=
  if has s k then
    if overwrite then
      Except.ok (s.map (fun p => if p.1 = k then (k, r) else p))
    else
      Except.error StoreError.alreadyExists
  else
    Except.ok (s ++ [(k, r)])

/-- Number of records stored at a key. -/
def countKey (s : HDDResults) (k : Key) : Nat :=
  s.countP (fun p => decide (p.1 = k))

end HDDResults

/-- Modelled from the spec: a Dataset is identified by its unique name
(the storage path and loader are external collaborators, out of scope). -/
structure UEADataset where
  name : String
  deriving DecidableEq

/-- Modelled from the spec: a Task declares, per dataset, the target column
used for prediction (`TSCTask(target=...)` in the notebook). -/
structure TSCTask where
  target : String
  deriving DecidableEq

/-- Modelled from the spec: a Strategy wraps a learning algorithm under a
stable unique name used as the join key for result lookup. -/
structure TSCStrategy where
  name : String
  deriving DecidableEq

/-- Modelled from the spec: a Cross-Validation Scheme supplies the fold
indices produced for a dataset. -/
abbrev CVScheme : Type := UEADataset → List Nat

/-- Modelled from the spec: the pre-split-from-files scheme derives a single
train/test fold from the dataset-provided file partitioning. -/
def PresplitFilesCV : CVScheme := fun _ => [0]

/-- Modelled from the spec: the Orchestrator holds an ordered collection of
datasets, a positionally paired collection of tasks, strategies, and a CV
scheme (the Results Store is passed to `fit_predict` as state). -/
structure Orchestrator where
  datasets : List UEADataset
  tasks : List TSCTask
  strategies : List TSCStrategy
  cv : CVScheme

namespace Orchestrator

/-- Modelled from the spec: the cross-product of combinations executed by
`fit_predict` — for each (dataset, task) pair, for each CV fold of that
dataset, for each strategy. -/
def crossKeys (o : Orchestrator) : List Key :=
  (o.datasets.zip o.tasks).flatMap (fun dt =>
    (o.cv dt.1).flatMap (fun f =>
      o.strategies.map (fun s => ⟨dt.1.name, s.name, f⟩)))

/-- Modelled from the spec: fitting a strategy on a fold's training partition
and predicting its test partition is external fit/predict capability; it is
abstracted as a function `exec` from a combination to the produced record.
With `save_fitted = false` the fitted artifact is discarded after
prediction. -/
def runCombination (exec : Key → ResultRecord) (save_fitted : Bool)
    (k : Key) : ResultRecord :=
  let r := exec k
  if save_fitted then r else { r with fittedArtifact := none }

/-- Modelled from the spec: writing one combination's record through the
Results Store — with `overwrite = false` a combination whose record already
exists is skipped; with `overwrite = true` it is replaced. -/
def writeResult (s : HDDResults) (k : Key) (r : ResultRecord)
    (overwrite : Bool) : HDDResults :=
  if HDDResults.has s k then
    if overwrite then s.map (fun p => if p.1 = k then (k, r) else p) else s
  else
    s ++ [(k, r)]

/-- Modelled from the spec: `Orchestrator.fit_predict` iterates all
combinations in deterministic order, fits then predicts each, and writes the
outputs through the Results Store with the configured overwrite/skip
semantics. -/
def fit_predict (o : Orchestrator) (exec : Key → ResultRecord)
    (results : HDDResults) (save_fitted overwrite : Bool) : HDDResults :=
  (crossKeys o).foldl
    (fun st k => writeResult st k (runCombination exec save_fitted k) overwrite)
    results

end Orchestrator

/-- Modelled from the spec: a Pairwise Metric scores predicted vs. true
labels for one fold (`PairwiseMetric(func=accuracy_score, name="accuracy")`
in the notebook); values are rationals. -/
structure PairwiseMetric where
  name : String
  func : List Nat → List Nat → ℚ

/-- Modelled from the spec: the accuracy score of predictions against true
labels — the fraction of positions where they agree. -/
def accuracy_score (truth predictions : List Nat) : ℚ :=
  if truth.length = 0 then 0
  else ((truth.zip predictions).countP (fun tp => decide (tp.1 = tp.2)) : ℚ) /
    (truth.length : ℚ)

/-- The accuracy metric used in the notebook. -/
def accuracyMetric : PairwiseMetric :=
  ⟨"accuracy", accuracy_score⟩

/-- Arithmetic mean of a list of rationals. -/
def listMean (xs : List ℚ) : ℚ := xs.sum / (xs.length : ℚ)

/-- Sample variance (denominator `n - 1`) of a list of rationals. -/
def sampleVariance (xs : List ℚ) : ℚ :=
  if xs.length ≤ 1 then 0
  else ((xs.map (fun x => (x - listMean xs) ^ 2)).sum) / ((xs.length : ℚ) - 1)

/-- Square of the sample standard error: sample variance over `n`. The
standard error itself is the square root, which is irrational in general, so
the development states all stderr facts on its square. -/
def stderrSq (xs : List ℚ) : ℚ := sampleVariance xs / (xs.length : ℚ)

/-- Modelled from the spec: the strategies appearing in the Results Store,
grouped in order of first appearance under `iterate`. -/
def uniqueStrategies (s : HDDResults) : List String :=
  s.foldl
    (fun acc p => if p.1.strategy ∈ acc then acc else acc ++ [p.1.strategy])
    []

/-- Modelled from the spec: the metric values of one strategy across all of
its Result Records (datasets/folds), applying the pairwise metric to
(truth, predictions) of each record. -/
def strategyValues (s : HDDResults) (metric : PairwiseMetric)
    (strat : String) : List ℚ :=
  (s.filter (fun p => decide (p.1.strategy = strat))).map
    (fun p => metric.func p.2.truth p.2.predictions)

/-- Modelled from the spec: the Metric Matrix — rows are strategies, row
entries are the strategy's metric values across datasets/folds in store
iteration order. -/
def metricMatrix (s : HDDResults) (metric : PairwiseMetric) :
    List (String × List ℚ) :=
  (uniqueStrategies s).map (fun st => (st, strategyValues s metric st))

/-- Modelled from the spec: the Evaluator's tabular output — named columns
and one row per strategy carrying (strategy, mean, squared stderr). -/
structure MetricTable where
  columns : List String
  rows : List (String × ℚ × ℚ)
  deriving DecidableEq

/-- Error raised when evaluation runs over an empty or partial Results Store
(spec's MissingResultsError). -/
inductive EvalError where
  | missingResults
  deriving DecidableEq

/-- Modelled from the spec: `Evaluator.evaluate(metric)` — fails with
MissingResultsError over an empty store or when an expected combination is
missing (unless the allow-partial option is set); otherwise aggregates each
strategy's metric values into mean and (squared) standard error, under the
fixed column-name contract `<metric_name>_mean` / `<metric_name>_stderr`. -/
def Evaluator.evaluate (store : HDDResults) (expected : List Key)
    (allowPartial : Bool) (metric : PairwiseMetric) :
    Except EvalError MetricTable :=
  if !allowPartial &&
      (store.isEmpty || expected.any (fun k => !HDDResults.has store k)) then
    Except.error EvalError.missingResults
  else
    Except.ok
      { columns := ["strategy", metric.name ++ "_mean", metric.name ++ "_stderr"]
        rows := (metricMatrix store metric).map
          (fun r => (r.1, listMean r.2, stderrSq r.2)) }

/-- Modelled from the spec: the rank of a value within one dataset's column
of the Metric Matrix — rank 1 for the highest value, ties receiving the
average of the ranks they straddle. -/
def rankOf (v : ℚ) (col : List ℚ) : ℚ :=
  (col.countP (fun w => decide (v < w)) : ℚ) +
    ((col.countP (fun w => decide (w = v)) : ℚ) + 1) / 2

/-- One dataset's column of the Metric Matrix. -/
def matrixColumn (mm : List (String × List ℚ)) (j : Nat) : List ℚ :=
  mm.map (fun r => r.2.getD j 0)

/-- The Evaluator's rank output: named columns and one row per strategy
carrying (strategy, mean rank). -/
structure RankTable where
  columns : List String
  rows : List (String × ℚ)
  deriving DecidableEq

/-- Mean rank of one strategy row: the average of its per-dataset ranks. -/
def meanRankRow (mm : List (String × List ℚ)) (nD : Nat)
    (r : String × List ℚ) : ℚ :=
  listMean ((List.range nD).map (fun j => rankOf (r.2.getD j 0) (matrixColumn mm j)))

/-- Modelled from the spec: `Evaluator.rank()` — derived purely from the
Metric Matrix: per dataset, strategies are ranked by metric value (rank 1 =
highest, average rank on ties), then ranks are averaged per strategy across
datasets, reported under the column-name contract
`<metric_name>_mean_rank`. -/
def Evaluator.rank (mm : List (String × List ℚ)) (metricName : String) :
    RankTable :=
  { columns := ["strategy", metricName ++ "_mean_rank"]
    rows := mm.map (fun r => (r.1, meanRankRow mm ((mm.headD ("", [])).2.length) r)) }

/-- The `fit_predict` iteration viewed as a fold over an explicit key list;
`fit_predict` is definitionally `writeAll` over `crossKeys`. -/
def Orchestrator.writeAll (m : Key → ResultRecord) (ow : Bool)
    (ks : List Key) (s : HDDResults) : HDDResults :=
  ks.foldl (fun st k => Orchestrator.writeResult st k (m k) ow) s

/-- Erase every stored fitted artifact, keeping predictions and truths. -/
def scrubArtifacts (s : HDDResults) : HDDResults :=
  s.map (fun p => (p.1, { p.2 with fittedArtifact := none }))

/-- True labels of a modelled test partition (all label 0). -/
def notebookTruth (n : Nat) : List Nat := List.replicate n 0

/-- Predictions agreeing with the truth on the first `correct` positions. -/
def notebookPred (correct total : Nat) : List Nat :=
  List.replicate correct 0 ++ List.replicate (total - correct) 1

/-- A Result Record realizing an accuracy of `correct / total`. -/
def notebookRecord (correct total : Nat) : ResultRecord :=
  ⟨notebookPred correct total, notebookTruth total, none⟩

/-- Modelled from the spec: the example scenario's populated Results Store —
strategies tsf10 and tsf20 over GunPoint, ItalyPowerDemand and ArrowHead with
a single pre-split fold each. The raw predictions behind the notebook's
displayed table are not in the repository, so the per-dataset correct counts
are modelled so that each strategy's accuracy mean and sample standard error
round to the spec's displayed values (tsf10: 0.8709 / 0.0213; tsf20: 0.8794 /
0.0185) and the per-dataset winners give the displayed mean ranks 1.333333
and 1.666667. -/
def notebookStore : HDDResults :=
  [ (⟨"GunPoint", "tsf10", 0⟩, notebookRecord 364 400),
    (⟨"GunPoint", "tsf20", 0⟩, notebookRecord 355 400),
    (⟨"ItalyPowerDemand", "tsf10", 0⟩, notebookRecord 433 500),
    (⟨"ItalyPowerDemand", "tsf20", 0⟩, notebookRecord 422 500),
    (⟨"ArrowHead", "tsf10", 0⟩, notebookRecord 251 300),
    (⟨"ArrowHead", "tsf20", 0⟩, notebookRecord 272 300) ]

/-- The six expected (dataset, strategy, fold) combinations of the example
scenario. -/
def notebookExpected : List Key :=
  [⟨"GunPoint", "tsf10", 0⟩, ⟨"GunPoint", "tsf20", 0⟩,
   ⟨"ItalyPowerDemand", "tsf10", 0⟩, ⟨"ItalyPowerDemand", "tsf20", 0⟩,
   ⟨"ArrowHead", "tsf10", 0⟩, ⟨"ArrowHead", "tsf20", 0⟩]

/-- The evaluator's output table on the modelled example scenario. -/
def nbTable : MetricTable :=
  { columns := ["strategy", "accuracy_mean", "accuracy_stderr"]
    rows := [("tsf10", 3919 / 4500, 2299 / 5062500),
             ("tsf20", 15829 / 18000, 111361 / 324000000)] }

/-- The notebook's orchestrator configuration: three datasets, positionally
paired tasks targeting the "target" column, two strategies, pre-split CV. -/
def nbOrchestrator : Orchestrator :=
  { datasets := [⟨"GunPoint"⟩, ⟨"ItalyPowerDemand"⟩, ⟨"ArrowHead"⟩]
    tasks := [⟨"target"⟩, ⟨"target"⟩, ⟨"target"⟩]
    strategies := [⟨"tsf10"⟩, ⟨"tsf20"⟩]
    cv := PresplitFilesCV }

/-- The modelled fit/predict outcomes reproducing the example scenario's
store. -/
def nbExec : Key → ResultRecord := fun k =>
  if k.dataset = "GunPoint" then
    if k.strategy = "tsf10" then notebookRecord 364 400 else notebookRecord 355 400
  else if k.dataset = "ItalyPowerDemand" then
    if k.strategy = "tsf10" then notebookRecord 433 500 else notebookRecord 422 500
  else
    if k.strategy = "tsf10" then notebookRecord 251 300 else notebookRecord 272 300

/-- A one-record store used to exercise the duplicate-put contract. -/
def wStore : HDDResults :=
  [(⟨"GunPoint", "tsf10", 0⟩, notebookRecord 364 400)]

/-- A store holding a fitted artifact, used to exercise
artifact-independence of evaluation. -/
def artifactStore : HDDResults :=
  [(⟨"GunPoint", "tsf10", 0⟩, ⟨[0], [0], some 1⟩)]

/-- A small two-strategy, two-dataset Metric Matrix used to instantiate the
ranking contract. -/
def wMatrix : List (String × List ℚ) :=
  [("tsf10", [1, 0]), ("tsf20", [0, 1])]

theorem has_iff_countKey_pos (s : HDDResults) (k : Key) :
    HDDResults.has s k = true ↔ 0 < HDDResults.countKey s k := by
  simp [HDDResults.has, HDDResults.countKey, List.any_eq_true, List.countP_pos_iff]

theorem countKey_eq_zero_of_not_has (s : HDDResults) (k : Key)
    (h : HDDResults.has s k = false) : HDDResults.countKey s k = 0 := by
  by_contra hne
  have : HDDResults.has s k = true :=
    (has_iff_countKey_pos s k).mpr (Nat.pos_of_ne_zero hne)
  simp [this] at h

theorem countKey_writeResult_self (s : HDDResults) (k : Key)
    (r : ResultRecord) (ow : Bool) :
    HDDResults.countKey (Orchestrator.writeResult s k r ow) k =
      if HDDResults.has s k then HDDResults.countKey s k
      else HDDResults.countKey s k + 1 := by
  by_cases h : HDDResults.has s k
  · simp only [Orchestrator.writeResult, h, if_true]
    by_cases how : ow
    · simp only [how, if_true, HDDResults.countKey, List.countP_map]
      refine List.countP_congr ?_
      intro p _
      by_cases hp : p.1 = k <;> simp [hp, Function.comp]
    · simp [how]
  · simp only [Orchestrator.writeResult, h, Bool.false_eq_true, if_false,
      HDDResults.countKey, List.countP_append]
    simp

theorem countKey_writeResult_ne (s : HDDResults) (k j : Key)
    (r : ResultRecord) (ow : Bool) (hjk : j ≠ k) :
    HDDResults.countKey (Orchestrator.writeResult s k r ow) j =
      HDDResults.countKey s j := by
  by_cases h : HDDResults.has s k
  · simp only [Orchestrator.writeResult, h, if_true]
    by_cases how : ow
    · simp only [how, if_true, HDDResults.countKey, List.countP_map]
      refine List.countP_congr ?_
      intro p _
      by_cases hp : p.1 = k <;> simp [hp, Function.comp, hjk, Ne.symm hjk]
    · simp [how]
  · simp only [Orchestrator.writeResult, h, Bool.false_eq_true, if_false,
      HDDResults.countKey, List.countP_append]
    simp [Ne.symm hjk]

theorem countKey_writeResult_le (s : HDDResults) (k j : Key)
    (r : ResultRecord) (ow : Bool) (h : HDDResults.countKey s j ≤ 1) :
    HDDResults.countKey (Orchestrator.writeResult s k r ow) j ≤ 1 := by
  by_cases hjk : j = k
  · subst hjk
    rw [countKey_writeResult_self]
    by_cases hh : HDDResults.has s j
    · simp [hh, h]
    · have := countKey_eq_zero_of_not_has s j (by simpa using hh)
      simp [hh, this]
  · rw [countKey_writeResult_ne s k j r ow hjk]
    exact h

theorem has_writeResult_self (s : HDDResults) (k : Key) (r : ResultRecord)
    (ow : Bool) :
    HDDResults.has (Orchestrator.writeResult s k r ow) k = true := by
  rw [has_iff_countKey_pos, countKey_writeResult_self]
  by_cases h : HDDResults.has s k
  · simpa [h] using (has_iff_countKey_pos s k).mp h
  · simp [h]

theorem has_writeResult_mono (s : HDDResults) (k j : Key) (r : ResultRecord)
    (ow : Bool) (h : HDDResults.has s j = true) :
    HDDResults.has (Orchestrator.writeResult s k r ow) j = true := by
  by_cases hjk : j = k
  · subst hjk; exact has_writeResult_self s j r ow
  · rw [has_iff_countKey_pos, countKey_writeResult_ne s k j r ow hjk]
    exact (has_iff_countKey_pos s j).mp h

theorem writeAll_nil (m : Key → ResultRecord) (ow : Bool) (s : HDDResults) :
    Orchestrator.writeAll m ow [] s = s := rfl

theorem writeAll_cons (m : Key → ResultRecord) (ow : Bool) (k : Key)
    (ks : List Key) (s : HDDResults) :
    Orchestrator.writeAll m ow (k :: ks) s =
      Orchestrator.writeAll m ow ks (Orchestrator.writeResult s k (m k) ow) := rfl

theorem has_writeAll_mono (m : Key → ResultRecord) (ow : Bool)
    (ks : List Key) (s : HDDResults) (j : Key)
    (h : HDDResults.has s j = true) :
    HDDResults.has (Orchestrator.writeAll m ow ks s) j = true := by
  induction ks generalizing s with
  | nil => simpa [writeAll_nil] using h
  | cons k ks ih =>
    rw [writeAll_cons]
    exact ih _ (has_writeResult_mono s k j (m k) ow h)

theorem has_writeAll_of_mem (m : Key → ResultRecord) (ow : Bool)
    (ks : List Key) (s : HDDResults) (k : Key) (hk : k ∈ ks) :
    HDDResults.has (Orchestrator.writeAll m ow ks s) k = true := by
  induction ks generalizing s with
  | nil => cases hk
  | cons a ks ih =>
    rw [writeAll_cons]
    rcases List.mem_cons.mp hk with h | h
    · subst h
      exact has_writeAll_mono m ow ks _ k (has_writeResult_self s k (m k) ow)
    · exact ih _ h

theorem countKey_writeAll_le (m : Key → ResultRecord) (ow : Bool)
    (ks : List Key) (s : HDDResults)
    (h : ∀ j, HDDResults.countKey s j ≤ 1) (j : Key) :
    HDDResults.countKey (Orchestrator.writeAll m ow ks s) j ≤ 1 := by
  induction ks generalizing s with
  | nil => simpa [writeAll_nil] using h j
  | cons k ks ih =>
    rw [writeAll_cons]
    exact ih _ (fun i => countKey_writeResult_le s k i (m k) ow (h i))

theorem countKey_writeAll_of_not_mem (m : Key → ResultRecord) (ow : Bool)
    (ks : List Key) (s : HDDResults) (k : Key) (hk : k ∉ ks) :
    HDDResults.countKey (Orchestrator.writeAll m ow ks s) k =
      HDDResults.countKey s k := by
  induction ks generalizing s with
  | nil => simp [writeAll_nil]
  | cons a ks ih =>
    rw [writeAll_cons]
    have hka : k ≠ a := fun h => hk (h ▸ List.mem_cons_self a ks)
    rw [ih (Orchestrator.writeResult s a (m a) ow)
        (fun h => hk (List.mem_cons_of_mem a h)),
      countKey_writeResult_ne s a k (m a) ow hka]

theorem fit_predict_eq_writeAll (o : Orchestrator) (exec : Key → ResultRecord)
    (s : HDDResults) (sf ow : Bool) :
    o.fit_predict exec s sf ow =
      Orchestrator.writeAll (Orchestrator.runCombination exec sf) ow
        o.crossKeys s := rfl

/-- C1: a successful `Orchestrator.fit_predict` run leaves the Results Store
with exactly one Result Record for every (dataset, strategy, fold)
combination of the cross-product — no combination is missing, none is
duplicated (and no record exists outside the cross-product). -/
theorem fit_predict_exactly_one_record (o : Orchestrator)
    (exec : Key → ResultRecord) (sf ow : Bool) (k : Key) :
    HDDResults.countKey (o.fit_predict exec HDDResults.empty sf ow) k =
      if k ∈ o.crossKeys then 1 else 0 := by
  rw [fit_predict_eq_writeAll]
  by_cases hk : k ∈ o.crossKeys
  · have hle := countKey_writeAll_le (Orchestrator.runCombination exec sf) ow
      o.crossKeys HDDResults.empty (fun j => by simp [HDDResults.countKey, HDDResults.empty]) k
    have hpos := (has_iff_countKey_pos _ k).mp
      (has_writeAll_of_mem (Orchestrator.runCombination exec sf) ow
        o.crossKeys HDDResults.empty k hk)
    rw [if_pos hk]
    omega
  · rw [countKey_writeAll_of_not_mem _ _ _ _ _ hk, if_neg hk]
    simp [HDDResults.countKey, HDDResults.empty]

theorem writeResult_skip (s : HDDResults) (k : Key) (r : ResultRecord)
    (h : HDDResults.has s k = true) :
    Orchestrator.writeResult s k r false = s := by
  simp [Orchestrator.writeResult, h]

theorem writeAll_skip_all (m : Key → ResultRecord) (ks : List Key)
    (s : HDDResults) (h : ∀ k ∈ ks, HDDResults.has s k = true) :
    Orchestrator.writeAll m false ks s = s := by
  induction ks with
  | nil => rfl
  | cons a ks ih =>
    rw [writeAll_cons, writeResult_skip s a (m a) (h a (List.mem_cons_self a ks))]
    exact ih (fun k hk => h k (List.mem_cons_of_mem a hk))

/-- C2: re-running `fit_predict` with `overwrite_predictions = false` after a
first successful run over the same datasets, tasks, strategies and CV scheme
is idempotent — every combination whose Result Record already exists is
skipped, and the Results Store content after the second run equals its
content after the first. -/
theorem fit_predict_no_overwrite_idempotent (o : Orchestrator)
    (exec : Key → ResultRecord) (sf sf2 ow : Bool) :
    o.fit_predict exec (o.fit_predict exec HDDResults.empty sf ow) sf2 false =
      o.fit_predict exec HDDResults.empty sf ow := by
  rw [fit_predict_eq_writeAll, fit_predict_eq_writeAll]
  exact writeAll_skip_all _ o.crossKeys _
    (fun k hk => has_writeAll_of_mem _ ow o.crossKeys HDDResults.empty k hk)

theorem get_cons (x : Key × ResultRecord) (t : HDDResults) (j : Key) :
    HDDResults.get (x :: t) j =
      if x.1 = j then some x.2 else HDDResults.get t j := by
  by_cases h : x.1 = j
  · rw [HDDResults.get, List.find?_cons_of_pos _ (by simp [h]), if_pos h]
    rfl
  · rw [HDDResults.get, List.find?_cons_of_neg _ (by simp [h]), if_neg h]
    rfl

theorem get_map_replace_ne (s : HDDResults) (k j : Key) (r : ResultRecord)
    (hjk : j ≠ k) :
    HDDResults.get (s.map (fun p => if p.1 = k then (k, r) else p)) j =
      HDDResults.get s j := by
  induction s with
  | nil => rfl
  | cons a l ih =>
    rw [List.map_cons, get_cons, get_cons]
    by_cases ha : a.1 = k
    · rw [if_pos ha]
      simp only [if_neg (Ne.symm hjk), if_neg (ha ▸ (Ne.symm hjk) : ¬a.1 = j)]
      exact ih
    · rw [if_neg ha]
      by_cases haj : a.1 = j
      · rw [if_pos haj, if_pos haj]
      · rw [if_neg haj, if_neg haj]
        exact ih

theorem get_append_single_ne (s : HDDResults) (k j : Key) (r : ResultRecord)
    (hjk : j ≠ k) :
    HDDResults.get (s ++ [(k, r)]) j = HDDResults.get s j := by
  rw [HDDResults.get, List.find?_append, HDDResults.get,
    List.find?_cons_of_neg _ (by simp [Ne.symm hjk])]
  simp [List.find?]

theorem get_writeResult_overwrite_self (s : HDDResults) (k : Key)
    (r : ResultRecord) :
    HDDResults.get (Orchestrator.writeResult s k r true) k = some r := by
  by_cases h : HDDResults.has s k
  · simp only [Orchestrator.writeResult, h, if_true]
    induction s with
    | nil => simp [HDDResults.has] at h
    | cons a l ih =>
      rw [List.map_cons, get_cons]
      by_cases ha : a.1 = k
      · rw [if_pos ha]
        simp
      · rw [if_neg ha]
        simp only [if_neg ha]
        exact ih (by simpa [HDDResults.has, List.any_cons, ha] using h)
  · simp only [Orchestrator.writeResult, h, Bool.false_eq_true, if_false]
    have hfind : s.find? (fun p => decide (p.1 = k)) = none := by
      rw [List.find?_eq_none]
      intro p hp
      simp only [decide_eq_true_eq]
      intro hpk
      have : HDDResults.has s k = true := by
        simp only [HDDResults.has, List.any_eq_true]
        exact ⟨p, hp, by simp [hpk]⟩
      simp [this] at h
    rw [HDDResults.get, List.find?_append, hfind]
    simp [List.find?]

theorem get_writeResult_ne (s : HDDResults) (k j : Key) (r : ResultRecord)
    (ow : Bool) (hjk : j ≠ k) :
    HDDResults.get (Orchestrator.writeResult s k r ow) j =
      HDDResults.get s j := by
  by_cases h : HDDResults.has s k
  · by_cases how : ow
    · simp only [Orchestrator.writeResult, h, how, if_true]
      exact get_map_replace_ne s k j r hjk
    · simp [Orchestrator.writeResult, h, how]
  · simp only [Orchestrator.writeResult, h, Bool.false_eq_true, if_false]
    exact get_append_single_ne s k j r hjk

theorem get_writeAll_of_not_mem (m : Key → ResultRecord) (ow : Bool)
    (ks : List Key) (s : HDDResults) (k : Key) (hk : k ∉ ks) :
    HDDResults.get (Orchestrator.writeAll m ow ks s) k = HDDResults.get s k := by
  induction ks generalizing s with
  | nil => rfl
  | cons a ks ih =>
    have hka : k ≠ a := fun h => hk (h ▸ List.mem_cons_self a ks)
    rw [writeAll_cons, ih _ (fun h => hk (List.mem_cons_of_mem a h)),
      get_writeResult_ne s a k (m a) ow hka]

theorem get_writeAll_overwrite_of_mem (m : Key → ResultRecord)
    (ks : List Key) (s : HDDResults) (k : Key) (hk : k ∈ ks) :
    HDDResults.get (Orchestrator.writeAll m true ks s) k = some (m k) := by
  induction ks generalizing s with
  | nil => cases hk
  | cons a ks ih =>
    rw [writeAll_cons]
    by_cases hmem : k ∈ ks
    · exact ih _ hmem
    · have hka : k = a := by
        rcases List.mem_cons.mp hk with h | h
        · exact h
        · exact absurd h hmem
      subst hka
      rw [get_writeAll_of_not_mem m true ks _ k hmem,
        get_writeResult_overwrite_self s k (m k)]

/-- C3: re-running `fit_predict` with `overwrite_predictions = true` over an
already-populated Results Store replaces every existing Result Record — for
every cross-product key, the stored record after the second run is exactly
the second run's output, with no remnant of the first run's predictions. -/
theorem fit_predict_overwrite_replaces (o : Orchestrator)
    (exec1 exec2 : Key → ResultRecord) (sf1 sf2 ow1 : Bool) (k : Key)
    (hk : k ∈ o.crossKeys) :
    HDDResults.get
        (o.fit_predict exec2 (o.fit_predict exec1 HDDResults.empty sf1 ow1)
          sf2 true) k =
      some (Orchestrator.runCombination exec2 sf2 k) := by
  rw [fit_predict_eq_writeAll]
  exact get_writeAll_overwrite_of_mem _ o.crossKeys _ k hk

/-- Closed witness for C3 at the notebook's configuration: the GunPoint/tsf10
combination is replaced by the second run's record. -/
theorem fit_predict_overwrite_replaces_witness :
    (⟨"GunPoint", "tsf10", 0⟩ : Key) ∈ nbOrchestrator.crossKeys ∧
      HDDResults.get
          (nbOrchestrator.fit_predict nbExec
            (nbOrchestrator.fit_predict (fun _ => notebookRecord 0 1)
              HDDResults.empty true true) false true)
          ⟨"GunPoint", "tsf10", 0⟩ =
        some (Orchestrator.runCombination nbExec false ⟨"GunPoint", "tsf10", 0⟩) :=
  ⟨by decide,
    fit_predict_overwrite_replaces nbOrchestrator (fun _ => notebookRecord 0 1)
      nbExec true false true ⟨"GunPoint", "tsf10", 0⟩ (by decide)⟩

/-- C4: a `put` with overwrite disabled on a key whose Result Record already
exists fails with the AlreadyExists condition, surfaced to the caller; it
never silently merges with, or alters, the existing record. -/
theorem put_existing_key_already_exists (s : HDDResults) (k : Key)
    (r : ResultRecord) (h : HDDResults.has s k = true) :
    HDDResults.put s k r false = Except.error StoreError.alreadyExists := by
  simp [HDDResults.put, h]

/-- Closed witness for C4: putting onto the populated GunPoint/tsf10 key
without overwrite errors out. -/
theorem put_existing_key_already_exists_witness :
    HDDResults.has wStore ⟨"GunPoint", "tsf10", 0⟩ = true ∧
      HDDResults.put wStore ⟨"GunPoint", "tsf10", 0⟩ (notebookRecord 0 1) false =
        Except.error StoreError.alreadyExists :=
  ⟨by decide,
    put_existing_key_already_exists wStore ⟨"GunPoint", "tsf10", 0⟩
      (notebookRecord 0 1) (by decide)⟩

/-- C5: evaluating an empty Results Store, or one missing an expected
(dataset, strategy, fold) combination, fails with MissingResultsError rather
than computing from the available subset — unless the explicit allow-partial
option is set; in particular an empty store never yields an
empty-but-successful matrix. -/
theorem evaluate_missing_results_error (store : HDDResults)
    (expected : List Key) (metric : PairwiseMetric)
    (h : store = HDDResults.empty ∨
      ∃ k ∈ expected, HDDResults.has store k = false) :
    Evaluator.evaluate store expected false metric =
        Except.error EvalError.missingResults ∧
      (Evaluator.evaluate store expected true metric).isOk = true := by
  constructor
  · have hcond :
        (store.isEmpty || expected.any (fun k => !HDDResults.has store k)) = true := by
      rcases h with h | ⟨k, hk, hmiss⟩
      · subst h
        rfl
      · refine Bool.or_eq_true _ _ |>.mpr (Or.inr ?_)
        rw [List.any_eq_true]
        exact ⟨k, hk, by rw [hmiss]; rfl⟩
    simp [Evaluator.evaluate, hcond]
  · rfl

/-- Closed witness for C5: an empty store with one expected combination. -/
theorem evaluate_missing_results_error_witness :
    (HDDResults.empty = HDDResults.empty ∨
        ∃ k ∈ notebookExpected, HDDResults.has HDDResults.empty k = false) ∧
      (Evaluator.evaluate HDDResults.empty notebookExpected false accuracyMetric =
          Except.error EvalError.missingResults ∧
        (Evaluator.evaluate HDDResults.empty notebookExpected true
            accuracyMetric).isOk = true) :=
  ⟨Or.inl rfl,
    evaluate_missing_results_error HDDResults.empty notebookExpected
      accuracyMetric (Or.inl rfl)⟩

theorem countP_replicate {α : Type} (n : ℕ) (x : α) (p : α → Bool) :
    (List.replicate n x).countP p = if p x then n else 0 := by
  induction n with
  | zero => simp
  | succ m ih => by_cases h : p x <;> simp [List.replicate_succ, List.countP_cons, ih, h]

theorem accuracy_score_replicate (c n : ℕ) (hc : c ≤ n) :
    accuracy_score (notebookTruth n) (notebookPred c n) = (c : ℚ) / (n : ℚ) := by
  rcases Nat.eq_zero_or_pos n with hn | hn
  · subst hn
    have hc0 : c = 0 := Nat.le_zero.mp hc
    subst hc0
    simp [accuracy_score, notebookTruth]
  · have hsplit : notebookTruth n =
        List.replicate c 0 ++ List.replicate (n - c) 0 := by
      rw [notebookTruth, ← List.replicate_add, Nat.add_sub_cancel' hc]
    have hzip : (notebookTruth n).zip (notebookPred c n) =
        List.replicate c ((0 : ℕ), (0 : ℕ)) ++
          List.replicate (n - c) ((0 : ℕ), (1 : ℕ)) := by
      rw [hsplit, notebookPred, List.zip_append (by simp), List.zip_replicate',
        List.zip_replicate']
    have hlen : (notebookTruth n).length = n := by simp [notebookTruth]
    rw [accuracy_score, if_neg (by omega), hzip, List.countP_append,
      countP_replicate, countP_replicate, hlen]
    norm_num

theorem vals10_eq : strategyValues notebookStore accuracyMetric "tsf10" =
    [91 / 100, 433 / 500, 251 / 300] := by
  have h1 := accuracy_score_replicate 364 400 (by norm_num)
  have h2 := accuracy_score_replicate 433 500 (by norm_num)
  have h3 := accuracy_score_replicate 251 300 (by norm_num)
  simp [strategyValues, notebookStore, accuracyMetric, notebookRecord, List.filter]
  rw [h1, h2, h3]
  norm_num

theorem vals20_eq : strategyValues notebookStore accuracyMetric "tsf20" =
    [71 / 80, 211 / 250, 68 / 75] := by
  have h1 := accuracy_score_replicate 355 400 (by norm_num)
  have h2 := accuracy_score_replicate 422 500 (by norm_num)
  have h3 := accuracy_score_replicate 272 300 (by norm_num)
  simp [strategyValues, notebookStore, accuracyMetric, notebookRecord, List.filter]
  rw [h1, h2, h3]
  norm_num

theorem uniq_eq : uniqueStrategies notebookStore = ["tsf10", "tsf20"] := by
  simp [uniqueStrategies, notebookStore, List.foldl]

theorem mm_eq : metricMatrix notebookStore accuracyMetric =
    [("tsf10", [91 / 100, 433 / 500, 251 / 300]),
     ("tsf20", [71 / 80, 211 / 250, 68 / 75])] := by
  simp [metricMatrix, uniq_eq, vals10_eq, vals20_eq]

theorem mean10_eq : listMean [(91 : ℚ) / 100, 433 / 500, 251 / 300] = 3919 / 4500 := by
  norm_num [listMean]

theorem mean20_eq : listMean [(71 : ℚ) / 80, 211 / 250, 68 / 75] = 15829 / 18000 := by
  norm_num [listMean]

theorem stderrSq10_eq :
    stderrSq [(91 : ℚ) / 100, 433 / 500, 251 / 300] = 2299 / 5062500 := by
  norm_num [stderrSq, sampleVariance, listMean]

theorem stderrSq20_eq :
    stderrSq [(71 : ℚ) / 80, 211 / 250, 68 / 75] = 111361 / 324000000 := by
  norm_num [stderrSq, sampleVariance, listMean]

theorem evaluate_nb_eq :
    Evaluator.evaluate notebookStore notebookExpected false accuracyMetric =
      Except.ok nbTable := by
  have hguard : (notebookStore.isEmpty ||
      notebookExpected.any (fun k => !HDDResults.has notebookStore k)) = false := by
    simp [notebookStore, notebookExpected, HDDResults.has]
  rw [Evaluator.evaluate]
  rw [if_neg (by simp [hguard])]
  rw [mm_eq]
  simp only [List.map_cons, List.map_nil]
  rw [mean10_eq, mean20_eq, stderrSq10_eq, stderrSq20_eq]
  rfl

theorem rank_nb_eq :
    Evaluator.rank (metricMatrix notebookStore accuracyMetric) "accuracy" =
      ⟨["strategy", "accuracy_mean_rank"], [("tsf10", 4 / 3), ("tsf20", 5 / 3)]⟩ := by
  rw [mm_eq]
  simp [Evaluator.rank, meanRankRow, matrixColumn, rankOf, List.range_succ, listMean]
  norm_num

/-- C6: on the modelled example scenario — strategies tsf10 and tsf20 over
three datasets with a single pre-split fold each and accuracy as the pairwise
metric — `evaluate` returns a matrix of exactly two rows, one per strategy,
whose mean is the arithmetic mean of the strategy's three per-dataset
accuracies and whose (squared) stderr is the squared sample standard error of
those values; the means round to 0.8709 and 0.8794 and the stderrs to 0.0213
and 0.0185, reproducing the notebook's shown output. -/
theorem evaluate_example_scenario :
    Evaluator.evaluate notebookStore notebookExpected false accuracyMetric =
        Except.ok nbTable ∧
      nbTable.rows.length = 2 ∧
      strategyValues notebookStore accuracyMetric "tsf10" =
        [91 / 100, 433 / 500, 251 / 300] ∧
      strategyValues notebookStore accuracyMetric "tsf20" =
        [71 / 80, 211 / 250, 68 / 75] ∧
      nbTable.rows =
        [("tsf10", listMean [91 / 100, 433 / 500, 251 / 300],
            stderrSq [91 / 100, 433 / 500, 251 / 300]),
         ("tsf20", listMean [71 / 80, 211 / 250, 68 / 75],
            stderrSq [71 / 80, 211 / 250, 68 / 75])] ∧
      (8709 / 10000 - 5 / 100000 ≤ listMean [(91 : ℚ) / 100, 433 / 500, 251 / 300] ∧
        listMean [(91 : ℚ) / 100, 433 / 500, 251 / 300] < 8709 / 10000 + 5 / 100000) ∧
      ((2125 / 100000) ^ 2 ≤ stderrSq [(91 : ℚ) / 100, 433 / 500, 251 / 300] ∧
        stderrSq [(91 : ℚ) / 100, 433 / 500, 251 / 300] < (2135 / 100000) ^ 2) ∧
      (8794 / 10000 - 5 / 100000 ≤ listMean [(71 : ℚ) / 80, 211 / 250, 68 / 75] ∧
        listMean [(71 : ℚ) / 80, 211 / 250, 68 / 75] < 8794 / 10000 + 5 / 100000) ∧
      ((1845 / 100000) ^ 2 ≤ stderrSq [(71 : ℚ) / 80, 211 / 250, 68 / 75] ∧
        stderrSq [(71 : ℚ) / 80, 211 / 250, 68 / 75] < (1855 / 100000) ^ 2) := by
  refine ⟨evaluate_nb_eq, rfl, vals10_eq, vals20_eq, ?_, ?_, ?_, ?_, ?_⟩
  · rw [mean10_eq, mean20_eq, stderrSq10_eq, stderrSq20_eq]
    rfl
  · rw [mean10_eq]
    constructor <;> norm_num
  · rw [stderrSq10_eq]
    constructor <;> norm_num
  · rw [mean20_eq]
    constructor <;> norm_num
  · rw [stderrSq20_eq]
    constructor <;> norm_num

/-- C9: the ordering of strategies by mean rank is not monotone in their
ordering by mean metric — on the modelled notebook run, tsf10 has a strictly
lower mean accuracy than tsf20 yet obtains a strictly better (lower) mean
rank, because `rank()` averages per-dataset ranks rather than ranking the
aggregate means. -/
theorem rank_order_not_monotone_in_mean :
    Evaluator.evaluate notebookStore notebookExpected false accuracyMetric =
        Except.ok nbTable ∧
      (nbTable.rows.getD 0 ("", 0, 0)).1 = "tsf10" ∧
      (nbTable.rows.getD 1 ("", 0, 0)).1 = "tsf20" ∧
      (nbTable.rows.getD 0 ("", 0, 0)).2.1 < (nbTable.rows.getD 1 ("", 0, 0)).2.1 ∧
      ((Evaluator.rank (metricMatrix notebookStore accuracyMetric)
            "accuracy").rows.getD 0 ("", 0)).1 = "tsf10" ∧
      ((Evaluator.rank (metricMatrix notebookStore accuracyMetric)
            "accuracy").rows.getD 1 ("", 0)).1 = "tsf20" ∧
      ((Evaluator.rank (metricMatrix notebookStore accuracyMetric)
            "accuracy").rows.getD 0 ("", 0)).2 <
        ((Evaluator.rank (metricMatrix notebookStore accuracyMetric)
            "accuracy").rows.getD 1 ("", 0)).2 := by
  refine ⟨evaluate_nb_eq, rfl, rfl, ?_, ?_, ?_, ?_⟩
  · show (3919 : ℚ) / 4500 < 15829 / 18000
    norm_num
  · rw [rank_nb_eq]
    rfl
  · rw [rank_nb_eq]
    rfl
  · rw [rank_nb_eq]
    show (4 : ℚ) / 3 < 5 / 3
    norm_num

/-- C8: the Evaluator's output is tabular with exactly one row per strategy,
under the fixed column-name contract `<metric_name>_mean`,
`<metric_name>_stderr` and, for `rank()`, `<metric_name>_mean_rank`; with
metric name "accuracy" the columns are exactly "accuracy_mean",
"accuracy_stderr" and "accuracy_mean_rank", alongside a "strategy" column. -/
theorem evaluator_column_contract (store : HDDResults) (expected : List Key)
    (metric : PairwiseMetric) (t : MetricTable)
    (h : Evaluator.evaluate store expected false metric = Except.ok t) :
    t.columns = ["strategy", metric.name ++ "_mean", metric.name ++ "_stderr"] ∧
      t.rows.map Prod.fst = uniqueStrategies store ∧
      (Evaluator.rank (metricMatrix store metric) metric.name).columns =
        ["strategy", metric.name ++ "_mean_rank"] ∧
      (Evaluator.rank (metricMatrix store metric) metric.name).rows.map
          Prod.fst = uniqueStrategies store ∧
      (metric.name = "accuracy" →
        t.columns = ["strategy", "accuracy_mean", "accuracy_stderr"] ∧
          (Evaluator.rank (metricMatrix store metric) metric.name).columns =
            ["strategy", "accuracy_mean_rank"]) := by
  rw [Evaluator.evaluate] at h
  by_cases hc :
      (!false && (store.isEmpty || expected.any (fun k => !HDDResults.has store k))) = true
  · rw [if_pos hc] at h
    cases h
  · rw [if_neg hc] at h
    have ht := (Except.ok.inj h).symm
    subst ht
    refine ⟨rfl, ?_, rfl, ?_, ?_⟩
    · simp [metricMatrix, List.map_map, Function.comp_def]
    · simp [Evaluator.rank, metricMatrix, List.map_map, Function.comp_def]
    · intro hname
      rw [hname]
      exact ⟨rfl, rfl⟩

/-- Closed witness for C8 at the modelled example scenario. -/
theorem evaluator_column_contract_witness :
    Evaluator.evaluate notebookStore notebookExpected false accuracyMetric =
        Except.ok nbTable ∧
      (nbTable.columns =
          ["strategy", accuracyMetric.name ++ "_mean",
            accuracyMetric.name ++ "_stderr"] ∧
        nbTable.rows.map Prod.fst = uniqueStrategies notebookStore ∧
        (Evaluator.rank (metricMatrix notebookStore accuracyMetric)
            accuracyMetric.name).columns =
          ["strategy", accuracyMetric.name ++ "_mean_rank"] ∧
        (Evaluator.rank (metricMatrix notebookStore accuracyMetric)
            accuracyMetric.name).rows.map Prod.fst =
          uniqueStrategies notebookStore ∧
        (accuracyMetric.name = "accuracy" →
          nbTable.columns = ["strategy", "accuracy_mean", "accuracy_stderr"] ∧
            (Evaluator.rank (metricMatrix notebookStore accuracyMetric)
                accuracyMetric.name).columns =
              ["strategy", "accuracy_mean_rank"])) :=
  ⟨evaluate_nb_eq,
    evaluator_column_contract notebookStore notebookExpected accuracyMetric
      nbTable evaluate_nb_eq⟩

theorem artifact_none_writeResult (s : HDDResults) (k : Key)
    (r : ResultRecord) (ow : Bool)
    (hs : ∀ p ∈ s, p.2.fittedArtifact = none) (hr : r.fittedArtifact = none) :
    ∀ p ∈ Orchestrator.writeResult s k r ow, p.2.fittedArtifact = none := by
  intro p hp
  rw [Orchestrator.writeResult] at hp
  by_cases h : HDDResults.has s k
  · rw [if_pos h] at hp
    by_cases how : ow
    · rw [if_pos how] at hp
      rcases List.mem_map.mp hp with ⟨q, hq, hqp⟩
      by_cases hqk : q.1 = k
      · rw [if_pos hqk] at hqp
        rw [← hqp]
        exact hr
      · rw [if_neg hqk] at hqp
        rw [← hqp]
        exact hs q hq
    · rw [if_neg how] at hp
      exact hs p hp
  · rw [if_neg h] at hp
    rcases List.mem_append.mp hp with hmem | hmem
    · exact hs p hmem
    · rw [List.mem_singleton.mp hmem]
      exact hr

theorem artifact_none_writeAll (m : Key → ResultRecord) (ow : Bool)
    (ks : List Key) (s : HDDResults)
    (hs : ∀ p ∈ s, p.2.fittedArtifact = none)
    (hm : ∀ k, (m k).fittedArtifact = none) :
    ∀ p ∈ Orchestrator.writeAll m ow ks s, p.2.fittedArtifact = none := by
  induction ks generalizing s with
  | nil => exact hs
  | cons a ks ih =>
    rw [writeAll_cons]
    exact ih _ (artifact_none_writeResult s a (m a) ow hs (hm a))

theorem runCombination_discards_artifact (exec : Key → ResultRecord) (k : Key) :
    (Orchestrator.runCombination exec false k).fittedArtifact = none := rfl

theorem isEmpty_false_of_has (s : HDDResults) (k : Key)
    (h : HDDResults.has s k = true) : s.isEmpty = false := by
  cases s with
  | nil => cases h
  | cons a l => rfl

theorem evaluate_ok_of_complete (store : HDDResults) (expected : List Key)
    (metric : PairwiseMetric) (hne : store.isEmpty = false)
    (hall : ∀ k ∈ expected, HDDResults.has store k = true) :
    (Evaluator.evaluate store expected false metric).isOk = true := by
  have hany : expected.any (fun k => !HDDResults.has store k) = false := by
    rw [← Bool.not_eq_true, List.any_eq_true]
    rintro ⟨k, hk, hb⟩
    rw [hall k hk] at hb
    cases hb
  rw [Evaluator.evaluate, if_neg (by simp [hne, hany])]
  rfl

theorem scrub_has (s : HDDResults) (k : Key) :
    HDDResults.has (scrubArtifacts s) k = HDDResults.has s k := by
  rw [scrubArtifacts, HDDResults.has, List.any_map]
  rfl

theorem scrub_isEmpty (s : HDDResults) :
    (scrubArtifacts s).isEmpty = s.isEmpty := by
  cases s <;> rfl

theorem scrub_uniqueStrategies (s : HDDResults) :
    uniqueStrategies (scrubArtifacts s) = uniqueStrategies s := by
  rw [uniqueStrategies, scrubArtifacts, List.foldl_map]
  rfl

theorem scrub_strategyValues (s : HDDResults) (metric : PairwiseMetric)
    (strat : String) :
    strategyValues (scrubArtifacts s) metric strat =
      strategyValues s metric strat := by
  rw [strategyValues, scrubArtifacts, List.filter_map, List.map_map]
  rfl

theorem scrub_metricMatrix (s : HDDResults) (metric : PairwiseMetric) :
    metricMatrix (scrubArtifacts s) metric = metricMatrix s metric := by
  rw [metricMatrix, metricMatrix, scrub_uniqueStrategies]
  simp only [scrub_strategyValues]

theorem evaluate_scrub (s : HDDResults) (expected : List Key) (ap : Bool)
    (metric : PairwiseMetric) :
    Evaluator.evaluate (scrubArtifacts s) expected ap metric =
      Evaluator.evaluate s expected ap metric := by
  simp only [Evaluator.evaluate, scrub_isEmpty, scrub_metricMatrix, scrub_has]

/-- C10: evaluation succeeds using only persisted predictions and truths —
after a `fit_predict` run with `save_fitted_strategies = false` no stored
record carries a fitted artifact, yet `evaluate` still returns the full
metric matrix over that store; and evaluation is invariant under erasing
fitted artifacts from any store, so it never requires them. -/
theorem evaluate_independent_of_fitted_artifacts (o : Orchestrator)
    (exec : Key → ResultRecord) (ow : Bool) (metric : PairwiseMetric)
    (s2 : HDDResults) (expected2 : List Key) (ap2 : Bool)
    (m2 : PairwiseMetric) (hne : o.crossKeys ≠ []) :
    (o.fit_predict exec HDDResults.empty false ow).all
        (fun p => decide (p.2.fittedArtifact = none)) = true ∧
      (Evaluator.evaluate (o.fit_predict exec HDDResults.empty false ow)
          o.crossKeys false metric).isOk = true ∧
      Evaluator.evaluate (scrubArtifacts s2) expected2 ap2 m2 =
        Evaluator.evaluate s2 expected2 ap2 m2 := by
  refine ⟨?_, ?_, evaluate_scrub s2 expected2 ap2 m2⟩
  · rw [List.all_eq_true]
    intro p hp
    rw [decide_eq_true_eq]
    rw [fit_predict_eq_writeAll] at hp
    exact artifact_none_writeAll _ ow o.crossKeys HDDResults.empty
      (by intro q hq; cases hq) (fun k => runCombination_discards_artifact exec k)
      p hp
  · have hall : ∀ k ∈ o.crossKeys,
        HDDResults.has (o.fit_predict exec HDDResults.empty false ow) k = true := by
      intro k hk
      rw [fit_predict_eq_writeAll]
      exact has_writeAll_of_mem _ ow o.crossKeys HDDResults.empty k hk
    obtain ⟨k, hk⟩ : ∃ k, k ∈ o.crossKeys := by
      cases hcross : o.crossKeys with
      | nil => exact absurd hcross hne
      | cons a l => exact ⟨a, hcross ▸ List.mem_cons_self a l⟩
    exact evaluate_ok_of_complete _ _ metric
      (isEmpty_false_of_has _ k (hall k hk)) hall

/-- Closed witness for C10 at the notebook's configuration, with a separate
artifact-bearing store exercising scrub-invariance. -/
theorem evaluate_independent_of_fitted_artifacts_witness :
    nbOrchestrator.crossKeys ≠ [] ∧
      ((nbOrchestrator.fit_predict nbExec HDDResults.empty false true).all
          (fun p => decide (p.2.fittedArtifact = none)) = true ∧
        (Evaluator.evaluate
            (nbOrchestrator.fit_predict nbExec HDDResults.empty false true)
            nbOrchestrator.crossKeys false accuracyMetric).isOk = true ∧
        Evaluator.evaluate (scrubArtifacts artifactStore) notebookExpected
            false accuracyMetric =
          Evaluator.evaluate artifactStore notebookExpected false
            accuracyMetric) :=
  ⟨by decide,
    evaluate_independent_of_fitted_artifacts nbOrchestrator nbExec true
      accuracyMetric artifactStore notebookExpected false accuracyMetric
      (by decide)⟩

theorem countP_eq_sum_map {α : Type} (p : α → Bool) (l : List α) :
    l.countP p = (l.map (fun a => if p a then 1 else 0)).sum := by
  induction l with
  | nil => rfl
  | cons a t ih =>
    by_cases h : p a
    · simp [List.countP_cons, ih, h]
      omega
    · simp [List.countP_cons, ih, h]

theorem sum_map_sum_comm {α β M : Type} [AddCommMonoid M] (l₁ : List α)
    (l₂ : List β) (f : α → β → M) :
    (l₁.map (fun a => (l₂.map (fun b => f a b)).sum)).sum =
      (l₂.map (fun b => (l₁.map (fun a => f a b)).sum)).sum := by
  induction l₁ with
  | nil => simp
  | cons a t ih => simp [List.sum_map_add, ih]

theorem sum_countP_gt_eq_sum_countP_lt (col : List ℚ) :
    (col.map (fun v => col.countP (fun w => decide (v < w)))).sum =
      (col.map (fun v => col.countP (fun w => decide (w < v)))).sum := by
  have h1 : (col.map (fun v => col.countP (fun w => decide (v < w)))).sum =
      (col.map (fun v => (col.map (fun w =>
        if decide (v < w) then 1 else 0)).sum)).sum := by
    simp only [countP_eq_sum_map]
  have h2 : (col.map (fun v => col.countP (fun w => decide (w < v)))).sum =
      (col.map (fun v => (col.map (fun w =>
        if decide (w < v) then 1 else 0)).sum)).sum := by
    simp only [countP_eq_sum_map]
  rw [h1, h2,
    sum_map_sum_comm col col (fun a b => if decide (a < b) then 1 else 0)]

theorem countP_trichotomy (v : ℚ) (col : List ℚ) :
    col.countP (fun w => decide (v < w)) +
        col.countP (fun w => decide (w < v)) +
        col.countP (fun w => decide (w = v)) = col.length := by
  induction col with
  | nil => rfl
  | cons a t ih =>
    simp only [List.countP_cons, List.length_cons]
    rcases lt_trichotomy v a with h | h | h
    · have h1 : decide (v < a) = true := by simp [h]
      have h2 : decide (a < v) = false := by simp [lt_asymm h]
      have h3 : decide (a = v) = false := by simp [(ne_of_gt h)]
      rw [h1, h2, h3]
      simp
      omega
    · have h1 : decide (v < a) = false := by simp [h]
      have h2 : decide (a < v) = false := by simp [h]
      have h3 : decide (a = v) = true := by simp [h.symm]
      rw [h1, h2, h3]
      simp
      omega
    · have h1 : decide (v < a) = false := by simp [lt_asymm h]
      have h2 : decide (a < v) = true := by simp [h]
      have h3 : decide (a = v) = false := by simp [ne_of_lt h]
      rw [h1, h2, h3]
      simp
      omega

theorem sum_map_div {α : Type} (l : List α) (f : α → ℚ) (c : ℚ) :
    (l.map (fun x => f x / c)).sum = (l.map f).sum / c := by
  induction l with
  | nil => simp
  | cons x t ih => simp [ih, add_div]

theorem sum_rank_numerators (col : List ℚ) :
    (col.map (fun v => 2 * col.countP (fun w => decide (v < w)) +
        col.countP (fun w => decide (w = v)) + 1)).sum =
      col.length * col.length + col.length := by
  have h1 : (col.map (fun v => 2 * col.countP (fun w => decide (v < w)) +
      col.countP (fun w => decide (w = v)) + 1)).sum =
      (col.map (fun v => 2 * col.countP (fun w => decide (v < w)) +
        col.countP (fun w => decide (w = v)))).sum +
      (col.map (fun _ => 1)).sum := List.sum_map_add
  have h2 : (col.map (fun v => 2 * col.countP (fun w => decide (v < w)) +
      col.countP (fun w => decide (w = v)))).sum =
      (col.map (fun v => 2 * col.countP (fun w => decide (v < w)))).sum +
      (col.map (fun v => col.countP (fun w => decide (w = v)))).sum :=
    List.sum_map_add
  have h3 : (col.map (fun v => 2 * col.countP (fun w => decide (v < w)))).sum =
      2 * (col.map (fun v => col.countP (fun w => decide (v < w)))).sum :=
    List.sum_map_mul_left _ _ _
  have h4 : (col.map (fun _ => 1)).sum = col.length := by
    simp
  have h5 : (col.map (fun v => col.countP (fun w => decide (v < w)) +
      col.countP (fun w => decide (w < v)) +
      col.countP (fun w => decide (w = v)))).sum =
      (col.map (fun v => col.countP (fun w => decide (v < w)) +
        col.countP (fun w => decide (w < v)))).sum +
      (col.map (fun v => col.countP (fun w => decide (w = v)))).sum :=
    List.sum_map_add
  have h6 : (col.map (fun v => col.countP (fun w => decide (v < w)) +
      col.countP (fun w => decide (w < v)))).sum =
      (col.map (fun v => col.countP (fun w => decide (v < w)))).sum +
      (col.map (fun v => col.countP (fun w => decide (w < v)))).sum :=
    List.sum_map_add
  have h7 : (col.map (fun v => col.countP (fun w => decide (v < w)) +
      col.countP (fun w => decide (w < v)) +
      col.countP (fun w => decide (w = v)))).sum =
      (col.map (fun _ => col.length)).sum := by
    refine congrArg List.sum (List.map_congr_left ?_)
    intro v _
    exact countP_trichotomy v col
  have h8 : (col.map (fun _ => col.length)).sum = col.length * col.length := by
    simp [List.sum_replicate, Nat.smul_one_eq_cast]
  have h9 := sum_countP_gt_eq_sum_countP_lt col
  omega

theorem sum_rankOf (col : List ℚ) :
    (col.map (fun v => rankOf v col)).sum =
      (col.length : ℚ) * ((col.length : ℚ) + 1) / 2 := by
  have hr : ∀ v, rankOf v col =
      ((2 * col.countP (fun w => decide (v < w)) +
        col.countP (fun w => decide (w = v)) + 1 : ℕ) : ℚ) / 2 := by
    intro v
    rw [rankOf]
    push_cast
    ring
  have hstep1 : (col.map (fun v => rankOf v col)).sum =
      (col.map (fun v => ((2 * col.countP (fun w => decide (v < w)) +
        col.countP (fun w => decide (w = v)) + 1 : ℕ) : ℚ) / 2)).sum := by
    refine congrArg List.sum (List.map_congr_left ?_)
    intro v _
    exact hr v
  rw [hstep1, sum_map_div]
  have hcast : (col.map (fun v => ((2 * col.countP (fun w => decide (v < w)) +
      col.countP (fun w => decide (w = v)) + 1 : ℕ) : ℚ))).sum =
      (((col.map (fun v => 2 * col.countP (fun w => decide (v < w)) +
        col.countP (fun w => decide (w = v)) + 1)).sum : ℕ) : ℚ) := by
    rw [Nat.cast_list_sum, List.map_map]
    rfl
  rw [hcast, sum_rank_numerators]
  push_cast
  ring

theorem matrixColumn_length (mm : List (String × List ℚ)) (j : ℕ) :
    (matrixColumn mm j).length = mm.length := by
  simp [matrixColumn]

theorem meanRankRow_eq (mm : List (String × List ℚ)) (nD : ℕ)
    (r : String × List ℚ) :
    meanRankRow mm nD r =
      ((List.range nD).map
        (fun j => rankOf (r.2.getD j 0) (matrixColumn mm j))).sum / (nD : ℚ) := by
  rw [meanRankRow, listMean]
  simp

/-- C7: `Evaluator.rank()` assigns, within each dataset column of any Metric
Matrix, rank 1 to the strategy with the strictly highest metric value; each
strategy's mean rank is the average of its per-dataset ranks; and the mean
ranks summed across the k strategies equal 1 + 2 + ... + k = k(k+1)/2 (for
k = 2, the two mean ranks sum to 3, as in the notebook's
1.333333 + 1.666667). -/
theorem evaluator_rank_contract (mm : List (String × List ℚ)) (nD : ℕ)
    (name : String) (hne : mm ≠ []) (hrect : ∀ r ∈ mm, r.2.length = nD)
    (hpos : 0 < nD) :
    (∀ j : ℕ, ∀ v ∈ matrixColumn mm j,
        (matrixColumn mm j).countP (fun w => decide (w = v)) = 1 →
        (∀ w ∈ matrixColumn mm j, w ≠ v → w < v) →
        rankOf v (matrixColumn mm j) = 1) ∧
      (Evaluator.rank mm name).rows =
        mm.map (fun r => (r.1, listMean ((List.range nD).map
          (fun j => rankOf (r.2.getD j 0) (matrixColumn mm j))))) ∧
      ((Evaluator.rank mm name).rows.map (fun r => r.2)).sum =
        (mm.length : ℚ) * ((mm.length : ℚ) + 1) / 2 := by
  have hhead : (mm.headD ("", [])).2.length = nD := by
    cases mm with
    | nil => exact absurd rfl hne
    | cons a l => exact hrect a (List.mem_cons_self a l)
  have hrows : (Evaluator.rank mm name).rows =
      mm.map (fun r => (r.1, meanRankRow mm nD r)) := by
    rw [Evaluator.rank, hhead]
  refine ⟨?_, ?_, ?_⟩
  · intro j v hv hcount hmax
    have hgt : (matrixColumn mm j).countP (fun w => decide (v < w)) = 0 := by
      rw [List.countP_eq_zero]
      intro w hw
      simp only [decide_eq_true_eq]
      by_cases hwv : w = v
      · subst hwv
        exact lt_irrefl w
      · exact lt_asymm (hmax w hw hwv)
    rw [rankOf, hgt, hcount]
    norm_num
  · rw [hrows]
    rfl
  · rw [hrows, List.map_map]
    have hmean : (mm.map ((fun r : String × ℚ => r.2) ∘
        (fun r => (r.1, meanRankRow mm nD r)))) =
        mm.map (fun r => ((List.range nD).map
          (fun j => rankOf (r.2.getD j 0) (matrixColumn mm j))).sum / (nD : ℚ)) := by
      refine List.map_congr_left ?_
      intro r _
      exact meanRankRow_eq mm nD r
    rw [hmean, sum_map_div, sum_map_sum_comm]
    have hinner : ∀ j, (mm.map
        (fun r => rankOf (r.2.getD j 0) (matrixColumn mm j))).sum =
        (mm.length : ℚ) * ((mm.length : ℚ) + 1) / 2 := by
      intro j
      have heq : (mm.map (fun r => rankOf (r.2.getD j 0) (matrixColumn mm j))) =
          ((matrixColumn mm j).map (fun v => rankOf v (matrixColumn mm j))) :=
        (List.map_map (fun v => rankOf v (matrixColumn mm j))
          (fun r : String × List ℚ => r.2.getD j 0) mm).symm
      rw [heq, sum_rankOf, matrixColumn_length]
    have hconst : ((List.range nD).map (fun j => (mm.map
        (fun r => rankOf (r.2.getD j 0) (matrixColumn mm j))).sum)).sum =
        ((List.range nD).map (fun _ => (mm.length : ℚ) *
          ((mm.length : ℚ) + 1) / 2)).sum :=
      congrArg List.sum (List.map_congr_left (fun j _ => hinner j))
    rw [hconst]
    have hrep : ((List.range nD).map (fun _ => (mm.length : ℚ) *
        ((mm.length : ℚ) + 1) / 2)).sum =
        (nD : ℚ) * ((mm.length : ℚ) * ((mm.length : ℚ) + 1) / 2) := by
      simp [List.sum_replicate]
    rw [hrep]
    exact mul_div_cancel_left₀ _ (by positivity)

/-- Closed witness for C7 on a two-strategy, two-dataset matrix. -/
theorem evaluator_rank_contract_witness :
    (wMatrix ≠ [] ∧ (∀ r ∈ wMatrix, r.2.length = 2) ∧ 0 < 2) ∧
      ((∀ j : ℕ, ∀ v ∈ matrixColumn wMatrix j,
          (matrixColumn wMatrix j).countP (fun w => decide (w = v)) = 1 →
          (∀ w ∈ matrixColumn wMatrix j, w ≠ v → w < v) →
          rankOf v (matrixColumn wMatrix j) = 1) ∧
        (Evaluator.rank wMatrix "accuracy").rows =
          wMatrix.map (fun r => (r.1, listMean ((List.range 2).map
            (fun j => rankOf (r.2.getD j 0) (matrixColumn wMatrix j))))) ∧
        ((Evaluator.rank wMatrix "accuracy").rows.map (fun r => r.2)).sum =
          (wMatrix.length : ℚ) * ((wMatrix.length : ℚ) + 1) / 2) :=
  ⟨⟨by simp [wMatrix], by decide, by decide⟩,
    evaluator_rank_contract wMatrix 2 "accuracy" (by simp [wMatrix])
      (by decide) (by decide)⟩

end SktimeBenchmarking
